import Mathlib

/-!
Verification of the todosystem store manager (src/src/cli.ts).

The on-disk JSON store is shallowly embedded as a `Store` value:
`metadata` models the content of `metadata.json` (absent or parsed),
`listFiles` models the `lists/<name>.json` files as an association list
from list name to item array, and `legacyFile` models the legacy
`todos.json` file.  JavaScript objects used as string-keyed maps are
modelled by association lists with first-key lookup, in-place value
replacement and key-preserving insertion order, matching object
semantics.  Clock readings (`new Date().toISOString()`) and generated
ids (`generateId`) are nondeterministic environment inputs and are
passed to the operations as explicit arguments.  Operations that can
throw return an `Except` result paired with the store as it stands at
the moment of return, so that file writes performed before a throw are
kept, exactly as in the code.
-/

namespace TodoSystem

/-- Status of a todo item, from types.ts. -/
inductive TodoStatus where
  | pending
  | in_progress
  | completed
deriving DecidableEq, Repr

/-- Priority of a todo item, from types.ts. -/
inductive TodoPriority where
  | high
  | medium
  | low
deriving DecidableEq, Repr

/-- One todo item, from types.ts. -/
structure TodoItem where
  id : String
  content : String
  status : TodoStatus
  priority : TodoPriority
deriving DecidableEq, Repr

/-- Per-list metadata entry, the value stored under a list name in
metadata.json (the TodoList type of types.ts without its name field). -/
structure TodoListMeta where
  description : String
  created : String
  lastModified : String
  totalTodos : Nat
  completedTodos : Nat
deriving DecidableEq, Repr

/-- The content of metadata.json, from types.ts. -/
structure TodoListsMetadata where
  activeList : String
  lists : List (String × TodoListMeta)
deriving DecidableEq, Repr

/-- The persistent state: metadata.json (if present and parseable), the
files under lists/, and the legacy todos.json (if present and parseable). -/
structure Store where
  metadata : Option TodoListsMetadata
  listFiles : List (String × List TodoItem)
  legacyFile : Option (List TodoItem)
deriving DecidableEq, Repr

/-- Errors thrown by the store manager and the tool dispatcher. -/
inductive TodoError where
  | notInitialized
  | listNotFound (name : String)
  | todoNotFound (id : String) (listName : String)
  | invalidListName
  | listAlreadyExists (name : String)
  | cannotDeleteDefault
  | contentRequired
deriving DecidableEq, Repr

/-- Lookup in a string-keyed association list (JavaScript object read). -/
def alookup {α : Type} : List (String × α) → String → Option α
  | [], _ => none
  | p :: ps, k => if p.1 = k then some p.2 else alookup ps k

/-- Set a key in a string-keyed association list (JavaScript object
property write): replaces the value in place if the key is present,
appends the pair otherwise. -/
def aset {α : Type} : List (String × α) → String → α → List (String × α)
  | [], k, v => [(k, v)]
  | p :: ps, k, v => if p.1 = k then (k, v) :: ps else p :: aset ps k v

/-- Remove a key from a string-keyed association list (JavaScript
delete of an object property). -/
def aerase {α : Type} : List (String × α) → String → List (String × α)
  | [], _ => []
  | p :: ps, k => if p.1 = k then aerase ps k else p :: aerase ps k

/-- Whether an item counts as completed (todo.status === completed). -/
def isCompleted (t : TodoItem) : Bool :=
  match t.status with
  | .completed => true
  | _ => false

/-- Number of completed items: todos.filter(t is completed).length. -/
def countCompleted : List TodoItem → Nat
  | [] => 0
  | t :: ts => (if isCompleted t then 1 else 0) + countCompleted ts

/-- Array.prototype.findIndex: index of the first element satisfying
the predicate, if any. -/
def findTodoIndex (p : TodoItem → Prop) [DecidablePred p] : List TodoItem → Option Nat
  | [] => none
  | t :: ts => if p t then some 0 else (findTodoIndex p ts).map (· + 1)

/-- Index selected by the protocol-facing manager: exact id equality
(todos.findIndex(todo.id === id) in TodoManager.updateTodo and
TodoManager.deleteTodo). -/
def mgrTodoIndex (todos : List TodoItem) (id : String) : Option Nat :=
  findTodoIndex (fun t => t.id = id) todos

/-- JavaScript String.prototype.startsWith, on the character level. -/
def charsStartWith : List Char → List Char → Bool
  | _, [] => true
  | [], _ :: _ => false
  | c :: cs, d :: ds => if c = d then charsStartWith cs ds else false

/-- s.startsWith(p) for strings. -/
def strStartsWith (s p : String) : Bool :=
  charsStartWith s.data p.data

/-- Index selected by the CLI entry point: id prefix match
(todos.findIndex(todo.id.startsWith(id)) in TodoSystemCLI.updateTodo
and TodoSystemCLI.deleteTodo). -/
def cliTodoIndex (todos : List TodoItem) (id : String) : Option Nat :=
  findTodoIndex (fun t => strStartsWith t.id id = true) todos

/-- TodoManager.loadMetadata: read metadata.json, throwing when it is
absent or unreadable. -/
def loadMetadata (st : Store) : Except TodoError TodoListsMetadata :=
  match st.metadata with
  | some m => .ok m
  | none => .error .notInitialized

/-- TodoManager.getActiveListName. -/
def getActiveListName (st : Store) : Except TodoError String :=
  match st.metadata with
  | some m => .ok m.activeList
  | none => .error .notInitialized

/-- Target list resolution `listName || await this.getActiveListName()`:
an absent or empty (falsy) name falls back to the active list. -/
def resolveTarget (st : Store) (listName : Option String) : Except TodoError String :=
  match listName with
  | some s => if s = "" then getActiveListName st else .ok s
  | none => getActiveListName st

/-- TodoManager.loadList: read lists/name.json, throwing when absent. -/
def loadList (st : Store) (name : String) : Except TodoError (List TodoItem) :=
  match alookup st.listFiles name with
  | some todos => .ok todos
  | none => .error (.listNotFound name)

/-- TodoManager.saveList: write the item file, then reload metadata and,
only if this list has a metadata entry, recompute its counters and
lastModified and write metadata back.  The file write precedes the
metadata read, so it persists even when loading metadata throws. -/
def saveList (st : Store) (name : String) (todos : List TodoItem) (now : String) :
    Except TodoError Unit × Store :=
  let st1 : Store := { st with listFiles := aset st.listFiles name todos }
  match st1.metadata with
  | none => (.error .notInitialized, st1)
  | some m =>
    match alookup m.lists name with
    | none => (.ok (), st1)
    | some entry =>
      let entry1 : TodoListMeta :=
        { entry with
          lastModified := now
          totalTodos := todos.length
          completedTodos := countCompleted todos }
      (.ok (), { st1 with metadata := some { m with lists := aset m.lists name entry1 } })

/-- TodoManager.createList. -/
def createList (st : Store) (name : String) (description : Option String) (now : String) :
    Except TodoError (String × TodoListMeta) × Store :=
  if name = "" ∨ '/' ∈ name.data ∨ '\\' ∈ name.data then
    (.error .invalidListName, st)
  else
    match st.metadata with
    | none => (.error .notInitialized, st)
    | some m =>
      match alookup m.lists name with
      | some _ => (.error (.listAlreadyExists name), st)
      | none =>
        let newList : TodoListMeta :=
          { description := description.getD ""
            created := now
            lastModified := now
            totalTodos := 0
            completedTodos := 0 }
        let st1 : Store :=
          { st with
            metadata := some { m with lists := aset m.lists name newList }
            listFiles := aset st.listFiles name [] }
        (.ok (name, newList), st1)

/-- TodoManager.deleteList. -/
def deleteList (st : Store) (name : String) : Except TodoError Unit × Store :=
  if name = "default" then
    (.error .cannotDeleteDefault, st)
  else
    match st.metadata with
    | none => (.error .notInitialized, st)
    | some m =>
      match alookup m.lists name with
      | none => (.error (.listNotFound name), st)
      | some _ =>
        let m1 : TodoListsMetadata :=
          { activeList := if m.activeList = name then "default" else m.activeList
            lists := aerase m.lists name }
        (.ok (), { st with metadata := some m1, listFiles := aerase st.listFiles name })

/-- TodoManager.switchActiveList. -/
def switchActiveList (st : Store) (name : String) : Except TodoError Unit × Store :=
  match st.metadata with
  | none => (.error .notInitialized, st)
  | some m =>
    match alookup m.lists name with
    | none => (.error (.listNotFound name), st)
    | some _ => (.ok (), { st with metadata := some { m with activeList := name } })

/-- TodoManager.readTodos. -/
def readTodos (st : Store) (listName : Option String) :
    Except TodoError (List TodoItem) :=
  match resolveTarget st listName with
  | .error e => .error e
  | .ok target => loadList st target

/-- TodoManager.writeTodos. -/
def writeTodos (st : Store) (todos : List TodoItem) (listName : Option String)
    (now : String) : Except TodoError (List TodoItem) × Store :=
  match resolveTarget st listName with
  | .error e => (.error e, st)
  | .ok target =>
    match saveList st target todos now with
    | (.error e, st1) => (.error e, st1)
    | (.ok _, st1) => (.ok todos, st1)

/-- TodoManager.addTodo: append a fresh pending item with the supplied
content and priority (defaulting to medium) and persist. -/
def addTodo (st : Store) (content : String) (priority : Option TodoPriority)
    (listName : Option String) (newId now : String) :
    Except TodoError TodoItem × Store :=
  match resolveTarget st listName with
  | .error e => (.error e, st)
  | .ok target =>
    match alookup st.listFiles target with
    | none => (.error (.listNotFound target), st)
    | some todos =>
      let newTodo : TodoItem :=
        { id := newId
          content := content
          status := .pending
          priority := priority.getD .medium }
      match saveList st target (todos ++ [newTodo]) now with
      | (.error e, st1) => (.error e, st1)
      | (.ok _, st1) => (.ok newTodo, st1)

/-- Partial update argument of updateTodo: any subset of content,
status and priority. -/
structure TodoUpdate where
  content : Option String
  status : Option TodoStatus
  priority : Option TodoPriority
deriving DecidableEq, Repr

/-- The replacement item built by TodoManager.updateTodo: the id is kept
and each field falls back to the current value when not supplied. -/
def applyUpdate (cur : TodoItem) (u : TodoUpdate) : TodoItem :=
  { id := cur.id
    content := u.content.getD cur.content
    status := u.status.getD cur.status
    priority := u.priority.getD cur.priority }

/-- TodoManager.updateTodo: exact id match, partial field replacement. -/
def updateTodo (st : Store) (id : String) (u : TodoUpdate)
    (listName : Option String) (now : String) : Except TodoError TodoItem × Store :=
  match resolveTarget st listName with
  | .error e => (.error e, st)
  | .ok target =>
    match alookup st.listFiles target with
    | none => (.error (.listNotFound target), st)
    | some todos =>
      match mgrTodoIndex todos id with
      | none => (.error (.todoNotFound id target), st)
      | some i =>
        match todos[i]? with
        | none => (.error (.todoNotFound id target), st)
        | some cur =>
          let updated := applyUpdate cur u
          match saveList st target (todos.set i updated) now with
          | (.error e, st1) => (.error e, st1)
          | (.ok _, st1) => (.ok updated, st1)

/-- TodoManager.deleteTodo: exact id match, splice out the item. -/
def deleteTodo (st : Store) (id : String) (listName : Option String)
    (now : String) : Except TodoError TodoItem × Store :=
  match resolveTarget st listName with
  | .error e => (.error e, st)
  | .ok target =>
    match alookup st.listFiles target with
    | none => (.error (.listNotFound target), st)
    | some todos =>
      match mgrTodoIndex todos id with
      | none => (.error (.todoNotFound id target), st)
      | some i =>
        match todos[i]? with
        | none => (.error (.todoNotFound id target), st)
        | some deleted =>
          match saveList st target (todos.eraseIdx i) now with
          | (.error e, st1) => (.error e, st1)
          | (.ok _, st1) => (.ok deleted, st1)

/-- TodoSystemCLI.updateTodo: identical to the manager version except
that the item index is chosen by id prefix match. -/
def cliUpdateTodo (st : Store) (id : String) (u : TodoUpdate)
    (listName : Option String) (now : String) : Except TodoError TodoItem × Store :=
  match resolveTarget st listName with
  | .error e => (.error e, st)
  | .ok target =>
    match alookup st.listFiles target with
    | none => (.error (.listNotFound target), st)
    | some todos =>
      match cliTodoIndex todos id with
      | none => (.error (.todoNotFound id target), st)
      | some i =>
        match todos[i]? with
        | none => (.error (.todoNotFound id target), st)
        | some cur =>
          let updated := applyUpdate cur u
          match saveList st target (todos.set i updated) now with
          | (.error e, st1) => (.error e, st1)
          | (.ok _, st1) => (.ok updated, st1)

/-- TodoSystemCLI.deleteTodo: identical to the manager version except
that the item index is chosen by id prefix match. -/
def cliDeleteTodo (st : Store) (id : String) (listName : Option String)
    (now : String) : Except TodoError TodoItem × Store :=
  match resolveTarget st listName with
  | .error e => (.error e, st)
  | .ok target =>
    match alookup st.listFiles target with
    | none => (.error (.listNotFound target), st)
    | some todos =>
      match cliTodoIndex todos id with
      | none => (.error (.todoNotFound id target), st)
      | some i =>
        match todos[i]? with
        | none => (.error (.todoNotFound id target), st)
        | some deleted =>
          match saveList st target (todos.eraseIdx i) now with
          | (.error e, st1) => (.error e, st1)
          | (.ok _, st1) => (.ok deleted, st1)

/-- TodoManager.migrateLegacyData: if todos.json is readable and
metadata.json does not exist, and the legacy array is non-empty, write
the legacy items as lists/default.json, synthesize metadata with
recomputed counters, and remove todos.json; in every other case leave
the store unchanged. -/
def migrateLegacyData (st : Store) (now : String) : Store :=
  match st.legacyFile with
  | none => st
  | some legacyTodos =>
    match st.metadata with
    | some _ => st
    | none =>
      if legacyTodos.length > 0 then
        { st with
          listFiles := aset st.listFiles "default" legacyTodos
          metadata := some
            { activeList := "default"
              lists := [("default",
                { description := "Default todo list (migrated from legacy)"
                  created := now
                  lastModified := now
                  totalTodos := legacyTodos.length
                  completedTodos := countCompleted legacyTodos })] }
          legacyFile := none }
      else st

/-- TodoManager.ensureDefaultList: if metadata.json does not exist,
create it with a default list having zero counters and write an empty
lists/default.json. -/
def ensureDefaultList (st : Store) (now : String) : Store :=
  match st.metadata with
  | some _ => st
  | none =>
    { st with
      metadata := some
        { activeList := "default"
          lists := [("default",
            { description := "Default todo list"
              created := now
              lastModified := now
              totalTodos := 0
              completedTodos := 0 })] }
      listFiles := aset st.listFiles "default" [] }

/-- TodoManager.init: directory creation has no model content; the
state-relevant steps are legacy migration then default-list creation. -/
def initStore (st : Store) (now : String) : Store :=
  ensureDefaultList (migrateLegacyData st now) now

/-- Arguments of the todo_add protocol tool. -/
structure AddTodoArgs where
  content : Option String
  priority : Option TodoPriority
  list_name : Option String

/-- The todo_add branch of the CallToolRequestSchema handler: a falsy
content argument (absent or the empty string) is rejected with the
content-required error before the store is touched; otherwise the call
is forwarded to TodoManager.addTodo.  The surrounding try/catch turns
the throw into an error result, modelled by the Except value. -/
def handleTodoAdd (st : Store) (args : AddTodoArgs) (newId now : String) :
    Except TodoError TodoItem × Store :=
  match args.content with
  | none => (.error .contentRequired, st)
  | some c =>
    if c = "" then (.error .contentRequired, st)
    else addTodo st c args.priority args.list_name newId now

/-- One store-manager mutation, as reachable through the protocol tools. -/
inductive Op where
  | createList (name : String) (description : Option String) (now : String)
  | deleteList (name : String)
  | switchActiveList (name : String)
  | writeTodos (todos : List TodoItem) (listName : Option String) (now : String)
  | addTodo (content : String) (priority : Option TodoPriority)
      (listName : Option String) (newId now : String)
  | updateTodo (id : String) (u : TodoUpdate) (listName : Option String) (now : String)
  | deleteTodo (id : String) (listName : Option String) (now : String)

/-- The store left behind by one operation, whether it succeeded or threw. -/
def applyOp (st : Store) : Op → Store
  | .createList n d now => (createList st n d now).2
  | .deleteList n => (deleteList st n).2
  | .switchActiveList n => (switchActiveList st n).2
  | .writeTodos todos ln now => (writeTodos st todos ln now).2
  | .addTodo c p ln newId now => (addTodo st c p ln newId now).2
  | .updateTodo id u ln now => (updateTodo st id u ln now).2
  | .deleteTodo id ln now => (deleteTodo st id ln now).2

/-- Run a sequence of store-manager operations. -/
def runOps : Store → List Op → Store
  | st, [] => st
  | st, op :: ops => runOps (applyOp st op) ops

/-- The metadata invariant of an initialized store: metadata is present,
the default list is a key of lists, and activeList is a key of lists. -/
def StoreInv (st : Store) : Prop :=
  ∃ m, st.metadata = some m ∧ (alookup m.lists "default").isSome ∧
    (alookup m.lists m.activeList).isSome

/-- Alignment between the persisted item collections and the metadata
entries: metadata is present and a list file exists for a name exactly
when the name is a key of the metadata lists map. -/
def FileMetaAligned (st : Store) : Prop :=
  ∃ m, st.metadata = some m ∧
    ∀ name, (alookup st.listFiles name).isSome ↔ (alookup m.lists name).isSome

/-- A zero-counter metadata entry used by the concrete test stores. -/
def meta0 : TodoListMeta :=
  { description := ""
    created := "T0"
    lastModified := "T0"
    totalTodos := 0
    completedTodos := 0 }

/-- A freshly initialized store: only the default list, empty. -/
def st0 : Store :=
  { metadata := some { activeList := "default", lists := [("default", meta0)] }
    listFiles := [("default", [])]
    legacyFile := none }

/-- A store holding a default list and a work list, with work active. -/
def stWork : Store :=
  { metadata := some
      { activeList := "work"
        lists := [("default", meta0), ("work", meta0)] }
    listFiles := [("default", []), ("work", [])]
    legacyFile := none }

/-- The migration scenario of the spec: three legacy items, one completed. -/
def legacy3 : List TodoItem :=
  [{ id := "a1", content := "t1", status := .pending, priority := .medium },
   { id := "a2", content := "t2", status := .pending, priority := .high },
   { id := "a3", content := "t3", status := .completed, priority := .low }]

/-- A store holding only a non-empty legacy todos.json. -/
def stLegacy3 : Store :=
  { metadata := none, listFiles := [], legacyFile := some legacy3 }

/-- A store holding only an empty legacy todos.json. -/
def stLegacyEmpty : Store :=
  { metadata := none, listFiles := [], legacyFile := some [] }

/-- A concrete pending item with id abc. -/
def itemA : TodoItem :=
  { id := "abc", content := "x", status := .pending, priority := .medium }

/-- A concrete pending item with id abd, sharing the prefix ab with
itemA. -/
def itemB : TodoItem :=
  { id := "abd", content := "y", status := .pending, priority := .low }

/-- A store whose default list holds the single item itemA. -/
def stOne : Store :=
  { metadata := some { activeList := "default", lists := [("default", meta0)] }
    listFiles := [("default", [itemA])]
    legacyFile := none }

/-- A metadata entry with counters matching a one-item pending list. -/
def meta1 : TodoListMeta :=
  { description := ""
    created := "T0"
    lastModified := "T0"
    totalTodos := 1
    completedTodos := 0 }

/-- Like stOne but with counters consistent with its item collection. -/
def stOneC : Store :=
  { metadata := some { activeList := "default", lists := [("default", meta1)] }
    listFiles := [("default", [itemA])]
    legacyFile := none }

/-- The update argument that sets only status, to completed. -/
def statusCompletedUpdate : TodoUpdate :=
  { content := none, status := some TodoStatus.completed, priority := none }

theorem alookup_aset_self {α : Type} (l : List (String × α)) (k : String) (v : α) :
    alookup (aset l k v) k = some v := by
  induction l with
  | nil => simp [aset, alookup]
  | cons p ps ih =>
    by_cases h : p.1 = k
    · simp [aset, alookup, h]
    · simp [aset, alookup, h, ih]

theorem alookup_aset_ne {α : Type} (l : List (String × α)) (k k1 : String) (v : α)
    (h : k1 ≠ k) : alookup (aset l k v) k1 = alookup l k1 := by
  induction l with
  | nil => simp [aset, alookup, Ne.symm h]
  | cons p ps ih =>
    by_cases hp : p.1 = k
    · simp [aset, alookup, hp, Ne.symm h, h]
    · by_cases hq : p.1 = k1 <;> simp [aset, alookup, hp, hq, ih, h]

theorem alookup_aerase_self {α : Type} (l : List (String × α)) (k : String) :
    alookup (aerase l k) k = none := by
  induction l with
  | nil => simp [aerase, alookup]
  | cons p ps ih =>
    by_cases h : p.1 = k
    · simp [aerase, h, ih]
    · simp [aerase, alookup, h, ih]

theorem alookup_aerase_ne {α : Type} (l : List (String × α)) (k k1 : String)
    (h : k1 ≠ k) : alookup (aerase l k) k1 = alookup l k1 := by
  induction l with
  | nil => simp [aerase]
  | cons p ps ih =>
    by_cases hp : p.1 = k
    · simp [aerase, alookup, hp, Ne.symm h, ih]
    · by_cases hq : p.1 = k1 <;> simp [aerase, alookup, hp, hq, ih, h]

theorem countCompleted_append_one (ts : List TodoItem) (t : TodoItem) :
    countCompleted (ts ++ [t]) =
      countCompleted ts + (if isCompleted t then 1 else 0) := by
  induction ts with
  | nil => simp [countCompleted]
  | cons u us ih => simp [countCompleted, ih]; omega

theorem countCompleted_set (l : List TodoItem) (i : Nat) (cur v : TodoItem)
    (h : l[i]? = some cur) :
    countCompleted (l.set i v) + (if isCompleted cur then 1 else 0) =
      countCompleted l + (if isCompleted v then 1 else 0) := by
  induction l generalizing i with
  | nil => simp at h
  | cons t ts ih =>
    cases i with
    | zero =>
      simp at h
      subst h
      simp [List.set, countCompleted]
      omega
    | succ j =>
      simp at h
      have := ih j h
      simp [List.set, countCompleted]
      omega

/-- Characterization of findTodoIndex: it returns exactly the position
of the first element satisfying the predicate. -/
theorem findTodoIndex_eq_some_iff (p : TodoItem → Prop) [DecidablePred p]
    (l : List TodoItem) (i : Nat) :
    findTodoIndex p l = some i ↔
      ((∃ t, l[i]? = some t ∧ p t) ∧
        ∀ j u, j < i → l[j]? = some u → ¬ p u) := by
  induction l generalizing i with
  | nil => simp [findTodoIndex]
  | cons t ts ih =>
    by_cases h : p t
    · simp only [findTodoIndex, if_pos h]
      constructor
      · intro hi
        cases hi
        exact ⟨⟨t, by simp, h⟩, fun j u hj _ => absurd hj (Nat.not_lt_zero j)⟩
      · rintro ⟨_, hmin⟩
        cases i with
        | zero => rfl
        | succ j =>
          exact absurd h (hmin 0 t (Nat.succ_pos j) (by simp))
    · simp only [findTodoIndex, if_neg h, Option.map_eq_some']
      constructor
      · rintro ⟨i1, hi1, rfl⟩
        obtain ⟨⟨u, hu, hpu⟩, hmin⟩ := (ih i1).1 hi1
        refine ⟨⟨u, by simpa using hu, hpu⟩, ?_⟩
        intro j v hj hv
        cases j with
        | zero =>
          simp at hv
          exact hv ▸ h
        | succ j1 =>
          exact hmin j1 v (Nat.lt_of_succ_lt_succ hj) (by simpa using hv)
      · rintro ⟨⟨u, hu, hpu⟩, hmin⟩
        cases i with
        | zero =>
          simp at hu
          exact absurd (hu ▸ hpu) h
        | succ i1 =>
          refine ⟨i1, (ih i1).2 ⟨⟨u, by simpa using hu, hpu⟩, ?_⟩, rfl⟩
          intro j v hj hv
          exact hmin (j + 1) v (Nat.succ_lt_succ hj) (by simpa using hv)

theorem findTodoIndex_eq_none_iff (p : TodoItem → Prop) [DecidablePred p]
    (l : List TodoItem) :
    findTodoIndex p l = none ↔ ∀ t ∈ l, ¬ p t := by
  induction l with
  | nil => simp [findTodoIndex]
  | cons t ts ih =>
    by_cases h : p t
    · simp [findTodoIndex, if_pos h, h]
    · simp [findTodoIndex, if_neg h, h, ih]

theorem isSome_alookup_aset {α : Type} (l : List (String × α)) (k : String) (v : α)
    (k1 : String) (h : (alookup l k1).isSome) : (alookup (aset l k v) k1).isSome := by
  by_cases hk : k1 = k
  · subst hk
    rw [alookup_aset_self]
    rfl
  · rw [alookup_aset_ne l k k1 v hk]
    exact h

theorem StoreInv_saveList (st : Store) (name : String) (todos : List TodoItem)
    (now : String) (h : StoreInv st) : StoreInv (saveList st name todos now).2 := by
  obtain ⟨m, hm, hd, ha⟩ := h
  cases halk : alookup m.lists name with
  | none =>
    simp only [saveList, hm, halk]
    exact ⟨m, rfl, hd, ha⟩
  | some entry =>
    simp only [saveList, hm, halk]
    exact ⟨_, rfl, isSome_alookup_aset _ _ _ _ hd, isSome_alookup_aset _ _ _ _ ha⟩

theorem StoreInv_createList (st : Store) (name : String) (d : Option String)
    (now : String) (h : StoreInv st) : StoreInv (createList st name d now).2 := by
  obtain ⟨m, hm, hd, ha⟩ := h
  by_cases hv : name = "" ∨ '/' ∈ name.data ∨ '\\' ∈ name.data
  · simp only [createList, if_pos hv]
    exact ⟨m, hm, hd, ha⟩
  · cases halk : alookup m.lists name with
    | none =>
      simp only [createList, if_neg hv, hm, halk]
      exact ⟨_, rfl, isSome_alookup_aset _ _ _ _ hd, isSome_alookup_aset _ _ _ _ ha⟩
    | some entry =>
      simp only [createList, if_neg hv, hm, halk]
      exact ⟨m, hm, hd, ha⟩

theorem StoreInv_deleteList (st : Store) (name : String) (h : StoreInv st) :
    StoreInv (deleteList st name).2 := by
  obtain ⟨m, hm, hd, ha⟩ := h
  by_cases hdef : name = "default"
  · simp only [deleteList, if_pos hdef]
    exact ⟨m, hm, hd, ha⟩
  · cases halk : alookup m.lists name with
    | none =>
      simp only [deleteList, if_neg hdef, hm, halk]
      exact ⟨m, hm, hd, ha⟩
    | some entry =>
      have hdne : ("default" : String) ≠ name := fun h2 => hdef h2.symm
      have hde : (alookup (aerase m.lists name) "default").isSome := by
        rw [alookup_aerase_ne _ _ _ hdne]
        exact hd
      simp only [deleteList, if_neg hdef, hm, halk]
      refine ⟨_, rfl, hde, ?_⟩
      by_cases hact : m.activeList = name
      · simp only [if_pos hact]
        exact hde
      · simp only [if_neg hact]
        rw [alookup_aerase_ne _ _ _ hact]
        exact ha

theorem StoreInv_switchActiveList (st : Store) (name : String) (h : StoreInv st) :
    StoreInv (switchActiveList st name).2 := by
  obtain ⟨m, hm, hd, ha⟩ := h
  cases halk : alookup m.lists name with
  | none =>
    simp only [switchActiveList, hm, halk]
    exact ⟨m, hm, hd, ha⟩
  | some entry =>
    simp only [switchActiveList, hm, halk]
    refine ⟨_, rfl, hd, ?_⟩
    simp only [halk]
    rfl

theorem StoreInv_writeTodos (st : Store) (todos : List TodoItem)
    (ln : Option String) (now : String) (h : StoreInv st) :
    StoreInv (writeTodos st todos ln now).2 := by
  cases hr : resolveTarget st ln with
  | error e =>
    simp only [writeTodos, hr]
    exact h
  | ok target =>
    have hs := StoreInv_saveList st target todos now h
    cases hsv : saveList st target todos now with
    | mk r st1 =>
      rw [hsv] at hs
      cases r <;> simp only [writeTodos, hr, hsv] <;> exact hs

theorem StoreInv_addTodo (st : Store) (c : String) (p : Option TodoPriority)
    (ln : Option String) (newId now : String) (h : StoreInv st) :
    StoreInv (addTodo st c p ln newId now).2 := by
  cases hr : resolveTarget st ln with
  | error e =>
    simp only [addTodo, hr]
    exact h
  | ok target =>
    cases hf : alookup st.listFiles target with
    | none =>
      simp only [addTodo, hr, hf]
      exact h
    | some todos =>
      have hs := StoreInv_saveList st target
        (todos ++ [{ id := newId, content := c, status := .pending,
                     priority := p.getD .medium }]) now h
      cases hsv : saveList st target
          (todos ++ [{ id := newId, content := c, status := .pending,
                       priority := p.getD .medium }]) now with
      | mk r st1 =>
        rw [hsv] at hs
        cases r <;> simp only [addTodo, hr, hf, hsv] <;> exact hs

theorem StoreInv_updateTodo (st : Store) (id : String) (u : TodoUpdate)
    (ln : Option String) (now : String) (h : StoreInv st) :
    StoreInv (updateTodo st id u ln now).2 := by
  cases hr : resolveTarget st ln with
  | error e =>
    simp only [updateTodo, hr]
    exact h
  | ok target =>
    cases hf : alookup st.listFiles target with
    | none =>
      simp only [updateTodo, hr, hf]
      exact h
    | some todos =>
      cases hi : mgrTodoIndex todos id with
      | none =>
        simp only [updateTodo, hr, hf, hi]
        exact h
      | some i =>
        cases hg : todos[i]? with
        | none =>
          simp only [updateTodo, hr, hf, hi, hg]
          exact h
        | some cur =>
          have hs := StoreInv_saveList st target (todos.set i (applyUpdate cur u)) now h
          cases hsv : saveList st target (todos.set i (applyUpdate cur u)) now with
          | mk r st1 =>
            rw [hsv] at hs
            cases r <;> simp only [updateTodo, hr, hf, hi, hg, hsv] <;> exact hs

theorem StoreInv_deleteTodo (st : Store) (id : String) (ln : Option String)
    (now : String) (h : StoreInv st) : StoreInv (deleteTodo st id ln now).2 := by
  cases hr : resolveTarget st ln with
  | error e =>
    simp only [deleteTodo, hr]
    exact h
  | ok target =>
    cases hf : alookup st.listFiles target with
    | none =>
      simp only [deleteTodo, hr, hf]
      exact h
    | some todos =>
      cases hi : mgrTodoIndex todos id with
      | none =>
        simp only [deleteTodo, hr, hf, hi]
        exact h
      | some i =>
        cases hg : todos[i]? with
        | none =>
          simp only [deleteTodo, hr, hf, hi, hg]
          exact h
        | some cur =>
          have hs := StoreInv_saveList st target (todos.eraseIdx i) now h
          cases hsv : saveList st target (todos.eraseIdx i) now with
          | mk r st1 =>
            rw [hsv] at hs
            cases r <;> simp only [deleteTodo, hr, hf, hi, hg, hsv] <;> exact hs

theorem StoreInv_applyOp (st : Store) (op : Op) (h : StoreInv st) :
    StoreInv (applyOp st op) := by
  cases op with
  | createList n d now => exact StoreInv_createList st n d now h
  | deleteList n => exact StoreInv_deleteList st n h
  | switchActiveList n => exact StoreInv_switchActiveList st n h
  | writeTodos todos ln now => exact StoreInv_writeTodos st todos ln now h
  | addTodo c p ln newId now => exact StoreInv_addTodo st c p ln newId now h
  | updateTodo id u ln now => exact StoreInv_updateTodo st id u ln now h
  | deleteTodo id ln now => exact StoreInv_deleteTodo st id ln now h

theorem StoreInv_runOps (st : Store) (ops : List Op) (h : StoreInv st) :
    StoreInv (runOps st ops) := by
  induction ops generalizing st with
  | nil => exact h
  | cons op ops ih => exact ih (applyOp st op) (StoreInv_applyOp st op h)

theorem aligned_aset {α β : Type} (f : List (String × α)) (g : List (String × β))
    (name k : String) (v : α) (w : β)
    (h : (alookup f k).isSome ↔ (alookup g k).isSome) :
    (alookup (aset f name v) k).isSome ↔ (alookup (aset g name w) k).isSome := by
  by_cases hk : k = name
  · subst hk
    rw [alookup_aset_self, alookup_aset_self]
    simp
  · rw [alookup_aset_ne _ _ _ _ hk, alookup_aset_ne _ _ _ _ hk]
    exact h

theorem aligned_aerase {α β : Type} (f : List (String × α)) (g : List (String × β))
    (name k : String)
    (h : (alookup f k).isSome ↔ (alookup g k).isSome) :
    (alookup (aerase f name) k).isSome ↔ (alookup (aerase g name) k).isSome := by
  by_cases hk : k = name
  · subst hk
    rw [alookup_aerase_self, alookup_aerase_self]
    simp
  · rw [alookup_aerase_ne _ _ _ hk, alookup_aerase_ne _ _ _ hk]
    exact h

theorem st0_aligned : FileMetaAligned st0 := by
  refine ⟨_, rfl, fun name => ?_⟩
  by_cases h : ("default" : String) = name <;> simp [st0, alookup, h]

/-- Claim C4: for every store state, deleteList applied to the default
list fails with the protected-resource error, regardless of the content
of the default list or of the metadata, and the whole store (metadata
and all item collections) is returned unchanged. -/
theorem C4_delete_default_protected (st : Store) :
    deleteList st "default" = (.error .cannotDeleteDefault, st) := by
  simp [deleteList]

/-- Witness for C4 at a concrete store. -/
theorem C4_witness :
    deleteList st0 "default" = (.error .cannotDeleteDefault, st0) :=
  C4_delete_default_protected st0

/-- Claim C2: starting from any store satisfying the initialization
invariant (metadata present, default a key of lists, activeList a key of
lists), every sequence of createList, deleteList, switchActiveList,
writeTodos, addTodo, updateTodo and deleteTodo operations preserves that
invariant; further, on any such reachable store, deleting the currently
active non-default list resets activeList to default as observed by
getActiveListName, while deleting a non-active list leaves activeList
unchanged. -/
theorem C2_default_and_active_invariant (st : Store) (ops : List Op)
    (h : StoreInv st) :
    StoreInv (runOps st ops) ∧
    (∀ name m, (runOps st ops).metadata = some m → m.activeList = name →
      name ≠ "default" → (alookup m.lists name).isSome →
      getActiveListName (deleteList (runOps st ops) name).2 = .ok "default") ∧
    (∀ name m m1, (runOps st ops).metadata = some m → m.activeList ≠ name →
      (deleteList (runOps st ops) name).2.metadata = some m1 →
      m1.activeList = m.activeList) := by
  refine ⟨StoreInv_runOps st ops h, ?_, ?_⟩
  · intro name m hm hact hne hsome
    obtain ⟨entry, halk⟩ := Option.isSome_iff_exists.mp hsome
    simp only [deleteList, if_neg hne, hm, halk, getActiveListName]
    simp [hact]
  · intro name m m1 hm hne hm1
    by_cases hdef : name = "default"
    · simp only [deleteList, if_pos hdef, hm, Option.some.injEq] at hm1
      rw [← hm1]
    · cases halk : alookup m.lists name with
      | none =>
        simp only [deleteList, if_neg hdef, hm, halk, Option.some.injEq] at hm1
        rw [← hm1]
      | some entry =>
        simp only [deleteList, if_neg hdef, hm, halk, Option.some.injEq] at hm1
        rw [← hm1]
        simp [if_neg hne]

/-- Witness for C2 at a concrete store: work is active, deleting it is
observed by getActiveListName as a switch back to default. -/
theorem C2_witness :
    getActiveListName (deleteList (runOps stWork []) "work").2 = .ok "default" :=
  (C2_default_and_active_invariant stWork [] ⟨_, rfl, rfl, rfl⟩).2.1
    "work" _ rfl rfl (by decide) rfl

/-- Counterexample to claim C1 as stated: for the empty legacy
collection, initialization does not remove the legacy file, because
migrateLegacyData migrates (and unlinks todos.json) only when the legacy
array is non-empty. -/
theorem C1_counterexample :
    stLegacyEmpty.legacyFile = some [] ∧ stLegacyEmpty.metadata = none ∧
    (initStore stLegacyEmpty "T1").legacyFile = some [] :=
  ⟨rfl, rfl, rfl⟩

/-- Claim C1 amended: for every NON-EMPTY legacy item collection, if the
legacy todos file exists and no metadata file exists, then after
initialization the default list equals the legacy collection, the
synthesized metadata has totalTodos equal to the collection length and
completedTodos equal to the number of completed items, activeList is
default, and the legacy file no longer exists.  (For the empty legacy
collection everything holds except removal of the legacy file, which
remains on disk.) -/
theorem C1_migration (st : Store) (legacy : List TodoItem) (now : String)
    (hl : st.legacyFile = some legacy) (hm : st.metadata = none)
    (hne : legacy ≠ []) :
    ∃ m entry,
      (initStore st now).metadata = some m ∧
      m.activeList = "default" ∧
      alookup (initStore st now).listFiles "default" = some legacy ∧
      alookup m.lists "default" = some entry ∧
      entry.totalTodos = legacy.length ∧
      entry.completedTodos = countCompleted legacy ∧
      (initStore st now).legacyFile = none := by
  have hpos : legacy.length > 0 := List.length_pos.mpr hne
  have hst : initStore st now =
      { metadata := some
          { activeList := "default"
            lists := [("default",
              { description := "Default todo list (migrated from legacy)"
                created := now
                lastModified := now
                totalTodos := legacy.length
                completedTodos := countCompleted legacy })] }
        listFiles := aset st.listFiles "default" legacy
        legacyFile := none } := by
    simp only [initStore, migrateLegacyData, hl, hm, if_pos hpos, ensureDefaultList]
  rw [hst]
  exact ⟨_, _, rfl, rfl, alookup_aset_self _ _ _, rfl, rfl, rfl, rfl⟩

/-- Witness for C1 at the concrete migration scenario of the spec:
three legacy items of which one is completed. -/
theorem C1_witness :
    ∃ m entry,
      (initStore stLegacy3 "T1").metadata = some m ∧
      m.activeList = "default" ∧
      alookup (initStore stLegacy3 "T1").listFiles "default" = some legacy3 ∧
      alookup m.lists "default" = some entry ∧
      entry.totalTodos = 3 ∧
      entry.completedTodos = 1 ∧
      (initStore stLegacy3 "T1").legacyFile = none := by
  obtain ⟨m, entry, h1, h2, h3, h4, h5, h6, h7⟩ :=
    C1_migration stLegacy3 legacy3 "T1" rfl rfl (by decide)
  exact ⟨m, entry, h1, h2, h3, h4, by rw [h5]; rfl, by rw [h6]; rfl, h7⟩

/-- Counterexample to claim C3 as stated: from an aligned freshly
initialized store, writeTodos with a list name absent from metadata
creates the item collection file but no metadata entry, so a persisted
collection exists for a name that is not a key of the lists map. -/
theorem C3_counterexample :
    FileMetaAligned st0 ∧
    ¬ FileMetaAligned (writeTodos st0 [] (some "ghost") "T1").2 := by
  refine ⟨st0_aligned, ?_⟩
  rintro ⟨m, hm, hiff⟩
  have hmeq : (writeTodos st0 [] (some "ghost") "T1").2.metadata =
      some { activeList := "default", lists := [("default", meta0)] } := rfl
  rw [hmeq, Option.some.injEq] at hm
  have hfile : (alookup (writeTodos st0 [] (some "ghost") "T1").2.listFiles
      "ghost").isSome := rfl
  have h2 := (hiff "ghost").mp hfile
  rw [← hm] at h2
  simp [alookup] at h2

/-- Claim C3 amended: on a store whose list files are aligned with its
metadata keys, createList and deleteList preserve the alignment (they
create or delete the collection and the metadata entry together), and so
does writeTodos whenever the named list is present in metadata; but
writeTodos with a name absent from metadata creates the item collection
file while leaving no metadata entry for it, breaking the
correspondence. -/
theorem C3_file_metadata_alignment (st : Store) (h : FileMetaAligned st) :
    (∀ name d now, FileMetaAligned (createList st name d now).2) ∧
    (∀ name, FileMetaAligned (deleteList st name).2) ∧
    (∀ todos name now, name ≠ "" →
      (∃ m, st.metadata = some m ∧ (alookup m.lists name).isSome) →
      FileMetaAligned (writeTodos st todos (some name) now).2) ∧
    (∀ todos name now m, name ≠ "" → st.metadata = some m →
      alookup m.lists name = none →
      (alookup (writeTodos st todos (some name) now).2.listFiles name).isSome ∧
      ∀ m1, (writeTodos st todos (some name) now).2.metadata = some m1 →
        alookup m1.lists name = none) := by
  obtain ⟨m, hm, hiff⟩ := h
  refine ⟨?_, ?_, ?_, ?_⟩
  · intro name d now
    by_cases hv : name = "" ∨ '/' ∈ name.data ∨ '\\' ∈ name.data
    · simp only [createList, if_pos hv]
      exact ⟨m, hm, hiff⟩
    · cases halk : alookup m.lists name with
      | none =>
        simp only [createList, if_neg hv, hm, halk]
        exact ⟨_, rfl, fun k => aligned_aset _ _ _ _ _ _ (hiff k)⟩
      | some entry =>
        simp only [createList, if_neg hv, hm, halk]
        exact ⟨m, hm, hiff⟩
  · intro name
    by_cases hdef : name = "default"
    · simp only [deleteList, if_pos hdef]
      exact ⟨m, hm, hiff⟩
    · cases halk : alookup m.lists name with
      | none =>
        simp only [deleteList, if_neg hdef, hm, halk]
        exact ⟨m, hm, hiff⟩
      | some entry =>
        simp only [deleteList, if_neg hdef, hm, halk]
        exact ⟨_, rfl, fun k => aligned_aerase _ _ _ _ (hiff k)⟩
  · intro todos name now hne hpre
    obtain ⟨m2, hm2, hsome⟩ := hpre
    rw [hm] at hm2
    cases hm2
    obtain ⟨entry, halk⟩ := Option.isSome_iff_exists.mp hsome
    simp only [writeTodos, resolveTarget, if_neg hne, saveList, hm, halk]
    exact ⟨_, rfl, fun k => aligned_aset _ _ _ _ _ _ (hiff k)⟩
  · intro todos name now m2 hne hm2 halk
    rw [hm] at hm2
    cases hm2
    simp only [writeTodos, resolveTarget, if_neg hne, saveList, hm, halk]
    constructor
    · rw [alookup_aset_self]
      rfl
    · intro m1 hm1
      rw [Option.some.injEq] at hm1
      rw [← hm1]
      exact halk

/-- Witness for C3 at a concrete store: creating the work list on the
freshly initialized store keeps files and metadata aligned. -/
theorem C3_witness :
    FileMetaAligned (createList st0 "work" none "T1").2 :=
  (C3_file_metadata_alignment st0 st0_aligned).1 "work" none "T1"

/-- Claim C5: on a list present in metadata whose stored counters match
its item collection, a successful addTodo appends a pending item with
the given content and priority (medium when unspecified), raises
totalTodos by exactly one, leaves completedTodos unchanged, and persists
counters equal to the item count and the completed count of the new
collection. -/
theorem C5_addTodo_counters (st : Store) (m : TodoListsMetadata)
    (entry : TodoListMeta) (items : List TodoItem) (name content : String)
    (prio : Option TodoPriority) (newId now : String)
    (hm : st.metadata = some m) (hn : name ≠ "")
    (hf : alookup st.listFiles name = some items)
    (he : alookup m.lists name = some entry)
    (ht : entry.totalTodos = items.length)
    (hc : entry.completedTodos = countCompleted items) :
    ∃ t st1 m1 entry1,
      addTodo st content prio (some name) newId now = (.ok t, st1) ∧
      t.status = .pending ∧ t.content = content ∧
      t.priority = prio.getD .medium ∧ t.id = newId ∧
      st1.metadata = some m1 ∧
      alookup m1.lists name = some entry1 ∧
      alookup st1.listFiles name = some (items ++ [t]) ∧
      entry1.totalTodos = entry.totalTodos + 1 ∧
      entry1.completedTodos = entry.completedTodos ∧
      entry1.totalTodos = (items ++ [t]).length ∧
      entry1.completedTodos = countCompleted (items ++ [t]) := by
  have heq : addTodo st content prio (some name) newId now =
      (.ok { id := newId, content := content, status := .pending,
             priority := prio.getD .medium },
       { metadata := some
           { activeList := m.activeList
             lists := aset m.lists name
               { description := entry.description
                 created := entry.created
                 lastModified := now
                 totalTodos := (items ++
                   [({ id := newId, content := content, status := .pending,
                       priority := prio.getD .medium } : TodoItem)]).length
                 completedTodos := countCompleted (items ++
                   [{ id := newId, content := content, status := .pending,
                      priority := prio.getD .medium }]) } }
         listFiles := aset st.listFiles name (items ++
           [{ id := newId, content := content, status := .pending,
              priority := prio.getD .medium }])
         legacyFile := st.legacyFile }) := by
    simp only [addTodo, resolveTarget, if_neg hn, hf, saveList, hm, he]
  rw [heq]
  exact ⟨_, _, _, _, rfl, rfl, rfl, rfl, rfl, rfl, alookup_aset_self _ _ _,
    alookup_aset_self _ _ _, by simp [ht],
    by rw [countCompleted_append_one]; simp [isCompleted, hc], rfl, rfl⟩

/-- Witness for C5 at a concrete store: adding a low-priority item to
the empty default list. -/
theorem C5_witness :
    ∃ t st1 m1 entry1,
      addTodo st0 "buy milk" (some .low) (some "default") "i1" "T1" = (.ok t, st1) ∧
      t.status = .pending ∧ t.content = "buy milk" ∧
      t.priority = .low ∧ t.id = "i1" ∧
      st1.metadata = some m1 ∧
      alookup m1.lists "default" = some entry1 ∧
      alookup st1.listFiles "default" = some ([] ++ [t]) ∧
      entry1.totalTodos = meta0.totalTodos + 1 ∧
      entry1.completedTodos = meta0.completedTodos :=
  match C5_addTodo_counters st0 _ meta0 [] "default" "buy milk" (some .low)
      "i1" "T1" rfl (by decide) rfl rfl rfl rfl with
  | ⟨t, st1, m1, entry1, h1, h2, h3, h4, h5, h6, h7, h8, h9, h10, _, _⟩ =>
    ⟨t, st1, m1, entry1, h1, h2, h3, h4, h5, h6, h7, h8, h9, h10⟩

/-- Claim C8: createList rejects every empty name and every name holding
a slash or backslash with the invalid-input error, rejects every name
already present in metadata with the already-exists error, and in both
failure cases returns the store completely unchanged. -/
theorem C8_createList_errors (st : Store) :
    (∀ name d now, (name = "" ∨ '/' ∈ name.data ∨ '\\' ∈ name.data) →
      createList st name d now = (.error .invalidListName, st)) ∧
    (∀ name d now m, st.metadata = some m →
      ¬(name = "" ∨ '/' ∈ name.data ∨ '\\' ∈ name.data) →
      (alookup m.lists name).isSome →
      createList st name d now = (.error (.listAlreadyExists name), st)) := by
  constructor
  · intro name d now hv
    simp only [createList, if_pos hv]
  · intro name d now m hm hv hsome
    obtain ⟨entry, halk⟩ := Option.isSome_iff_exists.mp hsome
    simp only [createList, if_neg hv, hm, halk]

/-- Witness for C8 at concrete inputs: the name a/b is rejected as
invalid, and recreating the existing work list is rejected as already
existing; both calls return the store unchanged. -/
theorem C8_witness :
    createList st0 "a/b" none "T1" = (.error .invalidListName, st0) ∧
    createList stWork "work" none "T1" =
      (.error (.listAlreadyExists "work"), stWork) :=
  ⟨(C8_createList_errors st0).1 "a/b" none "T1" (by decide),
   (C8_createList_errors stWork).2 "work" none "T1" _ rfl (by decide) rfl⟩

/-- Claim C10: the todo_add tool handler rejects a request whose content
argument is absent or the empty string (a falsiness check) with the
content-required error, leaving the store untouched, while the
store-level addTodo itself accepts any content string, the empty string
included. -/
theorem C10_todo_add_requires_content (st : Store) (prio : Option TodoPriority)
    (ln : Option String) (newId now : String) :
    handleTodoAdd st { content := some "", priority := prio, list_name := ln }
      newId now = (.error .contentRequired, st) ∧
    handleTodoAdd st { content := none, priority := prio, list_name := ln }
      newId now = (.error .contentRequired, st) ∧
    (∀ content name items m, name ≠ "" →
      alookup st.listFiles name = some items → st.metadata = some m →
      (addTodo st content prio (some name) newId now).1 =
        .ok { id := newId, content := content, status := .pending,
              priority := prio.getD .medium }) := by
  refine ⟨rfl, rfl, ?_⟩
  intro content name items m hn hf hm
  cases halk : alookup m.lists name with
  | none => simp only [addTodo, resolveTarget, if_neg hn, hf, saveList, hm, halk]
  | some e => simp only [addTodo, resolveTarget, if_neg hn, hf, saveList, hm, halk]

/-- Witness for C10 at a concrete store: the empty content string is
rejected by the tool handler, while the store-level addTodo accepts it. -/
theorem C10_witness :
    handleTodoAdd st0 { content := some "", priority := none, list_name := none }
      "i1" "T1" = (.error .contentRequired, st0) ∧
    (addTodo st0 "" none (some "default") "i1" "T1").1 =
      .ok { id := "i1", content := "", status := .pending, priority := .medium } := by
  obtain ⟨h1, _, h3⟩ := C10_todo_add_requires_content st0 none none "i1" "T1"
  exact ⟨h1, h3 "" "default" [] _ (by decide) rfl rfl⟩

/-- Claim C6: the store-manager updateTodo matches by exact id; on a
match it replaces only the supplied fields of that one item, keeps its
id, and leaves every other item unchanged in value and position; with no
match it fails with the not-found error and the whole store, the item
collection included, is unchanged. -/
theorem C6_updateTodo_exact_and_frame (st : Store) (m : TodoListsMetadata)
    (items : List TodoItem) (name id : String) (u : TodoUpdate) (now : String)
    (hm : st.metadata = some m) (hn : name ≠ "")
    (hf : alookup st.listFiles name = some items) :
    (mgrTodoIndex items id = none →
      updateTodo st id u (some name) now = (.error (.todoNotFound id name), st)) ∧
    (∀ i cur, mgrTodoIndex items id = some i → items[i]? = some cur →
      cur.id = id ∧
      (updateTodo st id u (some name) now).1 = .ok (applyUpdate cur u) ∧
      (applyUpdate cur u).id = cur.id ∧
      (applyUpdate cur u).content = u.content.getD cur.content ∧
      (applyUpdate cur u).status = u.status.getD cur.status ∧
      (applyUpdate cur u).priority = u.priority.getD cur.priority ∧
      alookup (updateTodo st id u (some name) now).2.listFiles name =
        some (items.set i (applyUpdate cur u)) ∧
      (∀ j, j ≠ i → (items.set i (applyUpdate cur u))[j]? = items[j]?)) := by
  constructor
  · intro hi
    simp only [updateTodo, resolveTarget, if_neg hn, hf, hi]
  · intro i cur hi hcur
    have hi0 := hi
    simp only [mgrTodoIndex] at hi0
    obtain ⟨⟨t, ht2, hpt⟩, hmin⟩ :=
      (findTodoIndex_eq_some_iff (fun t => t.id = id) items i).mp hi0
    rw [hcur, Option.some.injEq] at ht2
    subst ht2
    refine ⟨hpt, ?_, rfl, rfl, rfl, rfl, ?_, ?_⟩
    · cases halk : alookup m.lists name with
      | none =>
        simp only [updateTodo, resolveTarget, if_neg hn, hf, hi, hcur,
          saveList, hm, halk]
      | some e =>
        simp only [updateTodo, resolveTarget, if_neg hn, hf, hi, hcur,
          saveList, hm, halk]
    · cases halk : alookup m.lists name with
      | none =>
        simp only [updateTodo, resolveTarget, if_neg hn, hf, hi, hcur,
          saveList, hm, halk]
        exact alookup_aset_self _ _ _
      | some e =>
        simp only [updateTodo, resolveTarget, if_neg hn, hf, hi, hcur,
          saveList, hm, halk]
        exact alookup_aset_self _ _ _
    · intro j hj
      exact List.getElem?_set_ne (fun h2 => hj h2.symm)

/-- Witness for C6 at a concrete one-item store. -/
theorem C6_witness :
    itemA.id = "abc" ∧
    (updateTodo stOne "abc" { content := some "y", status := none, priority := none }
      (some "default") "T1").1 =
      .ok (applyUpdate itemA { content := some "y", status := none, priority := none }) := by
  have h := (C6_updateTodo_exact_and_frame stOne _ [itemA] "default" "abc"
    { content := some "y", status := none, priority := none } "T1"
    rfl (by decide) rfl).2 0 itemA rfl rfl
  exact ⟨h.1, h.2.1⟩

/-- Claim C7: the CLI entry point updateTodo and deleteTodo select the
first item in list order whose id has the given string as a prefix
(deterministically the first when several match), while the
protocol-facing manager updateTodo and deleteTodo select an item only
when its id equals the given string exactly (again the first such). -/
theorem C7_id_matching_policies (items : List TodoItem) (id : String) :
    (∀ i, cliTodoIndex items id = some i →
      ∃ t, items[i]? = some t ∧ strStartsWith t.id id = true ∧
        ∀ j u, j < i → items[j]? = some u → strStartsWith u.id id = false) ∧
    ((∃ t ∈ items, strStartsWith t.id id = true) →
      ∃ i, cliTodoIndex items id = some i) ∧
    (∀ i, mgrTodoIndex items id = some i →
      ∃ t, items[i]? = some t ∧ t.id = id ∧
        ∀ j u, j < i → items[j]? = some u → u.id ≠ id) ∧
    ((∃ t ∈ items, t.id = id) → ∃ i, mgrTodoIndex items id = some i) := by
  refine ⟨?_, ?_, ?_, ?_⟩
  · intro i hi
    simp only [cliTodoIndex] at hi
    obtain ⟨⟨t, ht2, hpt⟩, hmin⟩ :=
      (findTodoIndex_eq_some_iff (fun t => strStartsWith t.id id = true) items i).mp hi
    refine ⟨t, ht2, hpt, ?_⟩
    intro j u hj hu
    simpa using hmin j u hj hu
  · rintro ⟨t, htm, hpt⟩
    cases hcli : cliTodoIndex items id with
    | some i => exact ⟨i, rfl⟩
    | none =>
      simp only [cliTodoIndex] at hcli
      exact absurd hpt
        ((findTodoIndex_eq_none_iff (fun t => strStartsWith t.id id = true)
          items).mp hcli t htm)
  · intro i hi
    simp only [mgrTodoIndex] at hi
    obtain ⟨⟨t, ht2, hpt⟩, hmin⟩ :=
      (findTodoIndex_eq_some_iff (fun t => t.id = id) items i).mp hi
    exact ⟨t, ht2, hpt, fun j u hj hu => hmin j u hj hu⟩
  · rintro ⟨t, htm, hpt⟩
    cases hmgr : mgrTodoIndex items id with
    | some i => exact ⟨i, rfl⟩
    | none =>
      simp only [mgrTodoIndex] at hmgr
      exact absurd hpt
        ((findTodoIndex_eq_none_iff (fun t => t.id = id) items).mp hmgr t htm)

/-- Witness for C7 at concrete items: the shortened id ab prefix-matches
the first of two items for the CLI policy, and the full id abc matches
exactly for the manager policy. -/
theorem C7_witness :
    (∃ t, ([itemA, itemB] : List TodoItem)[0]? = some t ∧
      strStartsWith t.id "ab" = true ∧
      ∀ j u, j < 0 → ([itemA, itemB] : List TodoItem)[j]? = some u →
        strStartsWith u.id "ab" = false) ∧
    (∃ i, mgrTodoIndex [itemA, itemB] "abc" = some i) :=
  ⟨(C7_id_matching_policies [itemA, itemB] "ab").1 0 rfl,
   (C7_id_matching_policies [itemA, itemB] "abc").2.2.2 ⟨itemA, by simp, rfl⟩⟩

/-- Reduction of a successful updateTodo call: exact-id match found at
index i, list file and metadata entry present. -/
theorem updateTodo_found (st : Store) (m : TodoListsMetadata)
    (entry : TodoListMeta) (items : List TodoItem) (name id : String)
    (u : TodoUpdate) (now : String) (i : Nat) (cur : TodoItem)
    (hm : st.metadata = some m) (hn : name ≠ "")
    (hf : alookup st.listFiles name = some items)
    (he : alookup m.lists name = some entry)
    (hi : mgrTodoIndex items id = some i) (hcur : items[i]? = some cur) :
    updateTodo st id u (some name) now =
      (.ok (applyUpdate cur u),
       { metadata := some
           { activeList := m.activeList
             lists := aset m.lists name
               { description := entry.description
                 created := entry.created
                 lastModified := now
                 totalTodos := (items.set i (applyUpdate cur u)).length
                 completedTodos := countCompleted (items.set i (applyUpdate cur u)) } }
         listFiles := aset st.listFiles name (items.set i (applyUpdate cur u))
         legacyFile := st.legacyFile }) := by
  simp only [updateTodo, resolveTarget, if_neg hn, hf, hi, hcur, saveList, hm, he]

/-- Claim C9: on a list whose stored counters match its item collection,
updating an item whose status is not completed by setting only status to
completed makes the recomputed completedTodos counter rise by exactly
one while totalTodos is unchanged; applying the identical update a
second time to the now-completed item leaves both counters unchanged. -/
theorem C9_mark_completed_idempotent (st : Store) (m : TodoListsMetadata)
    (entry : TodoListMeta) (items : List TodoItem) (name id : String)
    (i : Nat) (cur : TodoItem) (now now2 : String)
    (hm : st.metadata = some m) (hn : name ≠ "")
    (hf : alookup st.listFiles name = some items)
    (he : alookup m.lists name = some entry)
    (ht : entry.totalTodos = items.length)
    (hc : entry.completedTodos = countCompleted items)
    (hi : mgrTodoIndex items id = some i) (hcur : items[i]? = some cur)
    (hst : cur.status ≠ .completed) :
    ∃ st1 m1 entry1,
      (updateTodo st id statusCompletedUpdate (some name) now).2 = st1 ∧
      st1.metadata = some m1 ∧
      alookup m1.lists name = some entry1 ∧
      entry1.totalTodos = entry.totalTodos ∧
      entry1.completedTodos = entry.completedTodos + 1 ∧
      ∃ m2 entry2,
        (updateTodo st1 id statusCompletedUpdate (some name) now2).2.metadata = some m2 ∧
        alookup m2.lists name = some entry2 ∧
        entry2.totalTodos = entry1.totalTodos ∧
        entry2.completedTodos = entry1.completedTodos := by
  have hi0 := hi
  simp only [mgrTodoIndex] at hi0
  obtain ⟨⟨t, ht2, hpt⟩, hmin⟩ :=
    (findTodoIndex_eq_some_iff (fun t => t.id = id) items i).mp hi0
  rw [hcur, Option.some.injEq] at ht2
  subst ht2
  have heq1 := updateTodo_found st m entry items name id
    statusCompletedUpdate
    now i cur hm hn hf he hi hcur
  have hic : isCompleted cur = false := by
    cases hcs : cur.status with
    | pending => simp [isCompleted, hcs]
    | in_progress => simp [isCompleted, hcs]
    | completed => exact absurd hcs hst
  have hkey := countCompleted_set items i cur
    (applyUpdate cur statusCompletedUpdate) hcur
  simp only [hic] at hkey
  have hicu : isCompleted (applyUpdate cur statusCompletedUpdate) = true := rfl
  rw [hicu] at hkey
  simp only [if_true, if_false, Bool.false_eq_true] at hkey
  have hlen : i < items.length := (List.getElem?_eq_some.mp hcur).1
  have hset_i : (items.set i (applyUpdate cur statusCompletedUpdate))[i]? =
      some (applyUpdate cur statusCompletedUpdate) :=
    List.getElem?_set_eq_of_lt _ hlen
  have hi2 : mgrTodoIndex (items.set i (applyUpdate cur statusCompletedUpdate)) id = some i := by
    simp only [mgrTodoIndex]
    refine (findTodoIndex_eq_some_iff (fun t => t.id = id) _ i).mpr
      ⟨⟨_, hset_i, hpt⟩, ?_⟩
    intro j v hj hv
    have hjne : j ≠ i := Nat.ne_of_lt hj
    rw [List.getElem?_set_ne (fun h2 => hjne h2.symm)] at hv
    exact hmin j v hj hv
  have heq2 := updateTodo_found
    ⟨some ⟨m.activeList, aset m.lists name
        ⟨entry.description, entry.created, now,
         (items.set i (applyUpdate cur statusCompletedUpdate)).length,
         countCompleted (items.set i (applyUpdate cur statusCompletedUpdate))⟩⟩,
     aset st.listFiles name (items.set i (applyUpdate cur statusCompletedUpdate)),
     st.legacyFile⟩
    ⟨m.activeList, aset m.lists name
        ⟨entry.description, entry.created, now,
         (items.set i (applyUpdate cur statusCompletedUpdate)).length,
         countCompleted (items.set i (applyUpdate cur statusCompletedUpdate))⟩⟩
    ⟨entry.description, entry.created, now,
     (items.set i (applyUpdate cur statusCompletedUpdate)).length,
     countCompleted (items.set i (applyUpdate cur statusCompletedUpdate))⟩
    (items.set i (applyUpdate cur statusCompletedUpdate))
    name id statusCompletedUpdate now2 i
    (applyUpdate cur statusCompletedUpdate)
    rfl hn (alookup_aset_self _ _ _) (alookup_aset_self _ _ _) hi2 hset_i
  have hkey2 := countCompleted_set
    (items.set i (applyUpdate cur statusCompletedUpdate)) i
    (applyUpdate cur statusCompletedUpdate)
    (applyUpdate cur statusCompletedUpdate) hset_i
  refine ⟨_, _, _, by rw [heq1], rfl, alookup_aset_self _ _ _, ?_, ?_, ?_⟩
  · simp [List.length_set, ht]
  · show countCompleted (items.set i (applyUpdate cur statusCompletedUpdate)) =
      entry.completedTodos + 1
    omega
  · refine ⟨_, _, by rw [heq2], alookup_aset_self _ _ _, ?_, ?_⟩
    · show ((items.set i (applyUpdate cur statusCompletedUpdate)).set i
          (applyUpdate (applyUpdate cur statusCompletedUpdate)
            statusCompletedUpdate)).length =
        (items.set i (applyUpdate cur statusCompletedUpdate)).length
      simp [List.length_set]
    · show countCompleted ((items.set i (applyUpdate cur statusCompletedUpdate)).set i
          (applyUpdate (applyUpdate cur statusCompletedUpdate)
            statusCompletedUpdate)) =
        countCompleted (items.set i (applyUpdate cur statusCompletedUpdate))
      have hupd2 : applyUpdate (applyUpdate cur statusCompletedUpdate)
          statusCompletedUpdate = applyUpdate cur statusCompletedUpdate := rfl
      rw [hupd2]
      omega

/-- Witness for C9 at a concrete store: completing the single pending
item of the default list raises completedTodos from 0 to 1 with
totalTodos unchanged. -/
theorem C9_witness :
    ∃ st1 m1 entry1,
      (updateTodo stOneC "abc" statusCompletedUpdate (some "default") "T1").2 = st1 ∧
      st1.metadata = some m1 ∧
      alookup m1.lists "default" = some entry1 ∧
      entry1.totalTodos = meta1.totalTodos ∧
      entry1.completedTodos = meta1.completedTodos + 1 := by
  obtain ⟨st1, m1, entry1, h1, h2, h3, h4, h5, _⟩ :=
    C9_mark_completed_idempotent stOneC _ meta1 [itemA] "default" "abc" 0 itemA
      "T1" "T2" rfl (by decide) rfl rfl rfl rfl rfl rfl (by decide)
  exact ⟨st1, m1, entry1, h1, h2, h3, h4, h5⟩

end TodoSystem
